import Mathlib

/-!
Shallow embedding of the alignment-classification core of
`scripts/alignment_classifier.py` (dungeonchurch-oracle), together with
theorems settling the frozen claims about it.

Modelling conventions:
* Python floats are modelled by an arbitrary linear ordered field `K`
  (instantiated at `ℚ` for executable checks and at `ℝ` where a square
  root is involved); the numeric constants of the source are carried over
  as exact rationals.
* Python dicts with a fixed key set become structures; `dict.get(k, d)`
  on an optional key becomes `Option.getD`; a value that may be `None`
  becomes an `Option`.
* The external LLM service, whose call sits inside a `try`/`except`
  block, is modelled as an explicit argument of type `Except Unit raw`:
  `Except.error` covers every failure mode the `except` clause catches
  (network error, timeout, malformed or non-JSON response, failed float
  conversion).  The SHA-256 digest is modelled as an arbitrary function
  argument `hashFn` (only its determinism matters to the claims).
* Caches (`cache["entities"]`, `cache["relationships"]`) are modelled as
  association lists with newest-first lookup, matching dict overwrite
  semantics; the `timestamp` metadata field (wall clock) is dropped.
-/

namespace Oracle

/-! ## Basic data model -/

/-- A pair of alignment axis scores: the `law_chaos`/`good_evil` keys of the
dicts the classifier passes around. -/
structure Axes (K : Type) where
  law_chaos : K
  good_evil : K
deriving DecidableEq, Repr

/-- A stated alignment as produced by `extract_stated_alignment` or
`classify_entity_llm`: axes plus `confidence` and `source`. -/
structure Stated (K : Type) where
  law_chaos : K
  good_evil : K
  confidence : K
  source : String
deriving DecidableEq, Repr

variable {K : Type} [LinearOrderedField K]

/-- Python `max(-1.0, min(1.0, x))`, the axis clamp used throughout. -/
def clampAxis (x : K) : K := max (-1) (min 1 x)

/-- Python `max(0.0, min(1.0, x))`, the confidence clamp. -/
def clampConf (x : K) : K := max 0 (min 1 x)

theorem clampAxis_mem (x : K) : -1 ≤ clampAxis x ∧ clampAxis x ≤ 1 :=
  ⟨le_max_left _ _, max_le (by norm_num) (min_le_left _ _)⟩

theorem clampConf_mem (x : K) : 0 ≤ clampConf x ∧ clampConf x ≤ 1 :=
  ⟨le_max_left _ _, max_le (by norm_num) (min_le_left _ _)⟩

/-! ## Stage 1: stated-alignment extraction (`ALIGNMENT_PATTERNS`,
`extract_stated_alignment`, lines 24-117)

The regexes of `ALIGNMENT_PATTERNS` all have the shape
`\b w1 \s+ w2 \b` or `\b w \b` (one of them with a trailing `(?!\w)`),
matched with `re.IGNORECASE`.  They are embedded as a word list plus a
flag recording the negative lookahead, with an explicit matcher:
`\b` next to a word character holds iff the adjacent outer character is
absent or a non-word character, `\s+` is one or more whitespace
characters, and letters compare case-insensitively.  (Python `\w`/`\s`
also cover non-ASCII classes; the embedding is faithful on ASCII text,
which is all the patterns themselves use.) -/

/-- Python regex `\w` on ASCII: letters, digits and the underscore. -/
def isWordChar (c : Char) : Bool := c.isAlpha || c.isDigit || c = '_'

/-- Python regex `\s` on ASCII. -/
def isSpaceChar (c : Char) : Bool :=
  c = ' ' || c = '\t' || c = '\n' || c = '\r' || c = '\x0b' || c = '\x0c'

/-- One pattern of `ALIGNMENT_PATTERNS`: the literal words (lowercase),
separated by `\s+`, with `\b` at both ends; `negW` records a trailing
`(?!\w)` negative lookahead. -/
structure Pat where
  words : List (List Char)
  negW : Bool
deriving DecidableEq, Repr

/-- Match one literal word case-insensitively at the head of the input,
returning the rest of the input. -/
def matchWord : List Char → List Char → Option (List Char)
  | [], s => some s
  | _ :: _, [] => none
  | c :: w, d :: s => if d.toLower = c.toLower then matchWord w s else none

/-- Match `words` separated by `\s+` at the head of the input (the `\s+` is
greedy; since every word starts with a letter, maximal munch is exact). -/
def matchWords : List (List Char) → List Char → Option (List Char)
  | [], s => some s
  | [w], s => matchWord w s
  | w :: w2 :: ws, s =>
    match matchWord w s with
    | none => none
    | some r =>
      match r with
      | [] => none
      | d :: r' =>
        if isSpaceChar d then matchWords (w2 :: ws) (r'.dropWhile isSpaceChar)
        else none

/-- Whether pattern `p` matches at the current position: start `\b`
(previous character absent or non-word), the words, then the end `\b`
(next character absent or non-word) and, when `negW`, the `(?!\w)`
lookahead (the same condition, since every word ends in a word
character). -/
def patMatchesHere (p : Pat) (prev : Option Char) (s : List Char) : Bool :=
  (match prev with
   | none => true
   | some c => !isWordChar c) &&
  (match matchWords p.words s with
   | none => false
   | some r =>
     (match r with
      | [] => true
      | d :: _ => !isWordChar d) &&
     (!p.negW ||
      (match r with
       | [] => true
       | d :: _ => !isWordChar d)))

/-- Python `re.search`: try every position of the input. -/
def patSearch (p : Pat) (prev : Option Char) : List Char → Bool
  | [] => false
  | c :: rest => patMatchesHere p prev (c :: rest) || patSearch p (some c) rest

/-- Whether `re.search(pattern, content, re.IGNORECASE)` succeeds. -/
def patMatches (p : Pat) (content : String) : Bool :=
  patSearch p none content.data

/-- Helper turning a string literal into its character list. -/
def wchars (s : String) : List Char := s.data

/-- The `ALIGNMENT_PATTERNS` table (lines 24-46): nine full two-word
phrases, then the abbreviations, in source order, each with its
`(law_chaos, good_evil)` pair. -/
def ALIGNMENT_PATTERNS (K : Type) [LinearOrderedField K] : List (Pat × K × K) :=
  [ (⟨[wchars "lawful", wchars "good"], false⟩, (1, 1)),
    (⟨[wchars "neutral", wchars "good"], false⟩, (0, 1)),
    (⟨[wchars "chaotic", wchars "good"], false⟩, (-1, 1)),
    (⟨[wchars "lawful", wchars "neutral"], false⟩, (1, 0)),
    (⟨[wchars "true", wchars "neutral"], false⟩, (0, 0)),
    (⟨[wchars "chaotic", wchars "neutral"], false⟩, (-1, 0)),
    (⟨[wchars "lawful", wchars "evil"], false⟩, (1, -1)),
    (⟨[wchars "neutral", wchars "evil"], false⟩, (0, -1)),
    (⟨[wchars "chaotic", wchars "evil"], false⟩, (-1, -1)),
    (⟨[wchars "lg"], false⟩, (1, 1)),
    (⟨[wchars "ng"], false⟩, (0, 1)),
    (⟨[wchars "cg"], false⟩, (-1, 1)),
    (⟨[wchars "ln"], false⟩, (1, 0)),
    (⟨[wchars "tn"], false⟩, (0, 0)),
    (⟨[wchars "n"], true⟩, (0, 0)),
    (⟨[wchars "cn"], false⟩, (-1, 0)),
    (⟨[wchars "le"], false⟩, (1, -1)),
    (⟨[wchars "ne"], false⟩, (0, -1)),
    (⟨[wchars "ce"], false⟩, (-1, -1)) ]

/-- The pattern loop of `extract_stated_alignment` (lines 108-115): first
matching pattern wins, yielding its pair with confidence 1.0 and source
"explicit". -/
def findAlignmentPattern (content : String) : List (Pat × K × K) → Option (Stated K)
  | [] => none
  | (p, lc, ge) :: rest =>
    if patMatches p content then some ⟨lc, ge, 1, "explicit"⟩
    else findAlignmentPattern content rest

/-- Stage 1 `extract_stated_alignment` (lines 96-117): `None` on empty
content, else scan `ALIGNMENT_PATTERNS` in order. -/
def extract_stated_alignment (K : Type) [LinearOrderedField K] (content : String) :
    Option (Stated K) :=
  if content = "" then none
  else findAlignmentPattern content (ALIGNMENT_PATTERNS K)

/-- The behaviour claim C4 describes, written with `List.find?`: the result
belongs to the first pattern in list order that matches anywhere in the
text; absent when nothing matches or the text is empty. -/
def extractStatedSpec (K : Type) [LinearOrderedField K] (content : String) :
    Option (Stated K) :=
  if content = "" then none
  else
    ((ALIGNMENT_PATTERNS K).find? (fun pr => patMatches pr.1 content)).map
      (fun pr => ⟨pr.2.1, pr.2.2, 1, "explicit"⟩)

theorem findAlignmentPattern_eq_find (content : String) (l : List (Pat × K × K)) :
    findAlignmentPattern content l =
      (l.find? (fun pr => patMatches pr.1 content)).map
        (fun pr => ⟨pr.2.1, pr.2.2, 1, "explicit"⟩) := by
  induction l with
  | nil => rfl
  | cons hd tl ih =>
    obtain ⟨p, lc, ge⟩ := hd
    by_cases h : patMatches p content
    · simp [findAlignmentPattern, List.find?, h]
    · simp [findAlignmentPattern, List.find?, h, ih]

/-- Claim C4: `extract_stated_alignment` tries the fixed pattern list in its
written order and returns the `(law_chaos, good_evil)` pair of the first
pattern in list order that matches anywhere in the text (case-insensitive,
word-boundary-anchored), with confidence 1.0 and source "explicit"; list
order, not text position, decides among several matching patterns; it
returns none when no pattern matches or the text is empty. -/
theorem extract_stated_alignment_first_match (K : Type) [LinearOrderedField K]
    (content : String) :
    extract_stated_alignment K content = extractStatedSpec K content := by
  unfold extract_stated_alignment extractStatedSpec
  by_cases h : content = ""
  · simp [h]
  · simp [h, findAlignmentPattern_eq_find]

example : extract_stated_alignment ℚ "He is a lawful good paladin." =
    some ⟨1, 1, 1, "explicit"⟩ := by decide
example : extract_stated_alignment ℚ "The creature is chaotic evil." =
    some ⟨-1, -1, 1, "explicit"⟩ := by decide
example : extract_stated_alignment ℚ "Alignment: LG" =
    some ⟨1, 1, 1, "explicit"⟩ := by decide
example : extract_stated_alignment ℚ "She considers herself neutral good." =
    some ⟨0, 1, 1, "explicit"⟩ := by decide
example : extract_stated_alignment ℚ "No alignment mentioned here." = none := by decide
example : extract_stated_alignment ℚ "" = none := by decide
example : extract_stated_alignment ℚ "a chaotic evil lawful good one" =
    some ⟨1, 1, 1, "explicit"⟩ := by decide

/-! ## Stage 3: behavioral aggregation (`calculate_behavioral_alignment`,
lines 290-367), ceiling constraint (`apply_ceiling_constraint`, lines
370-395) -/

/-- One classified relationship as consumed by the aggregator: the dict
keys read via `rel.get(...)`, each optional, plus the `target_id` the
orchestrator attached.  Node identifiers are an opaque type `α`. -/
structure Rel (K α : Type) where
  type : Option String
  moral_valence : Option K
  order_valence : Option K
  target_id : Option α
deriving DecidableEq

/-- An entry of the `target_alignments` lookup dict: an optional `final`
sub-dict whose `good_evil` defaults to 0 when read. -/
structure TargetAlign (K : Type) where
  final : Option (Axes K)
deriving DecidableEq

/-- Python `target_align.get("final", \x7b\x7d).get("good_evil", 0)`. -/
def targetGoodEvil (t : TargetAlign K) : K :=
  (t.final.map Axes.good_evil).getD 0

/-- The loop body of lines 323-349: accumulate
`(total_moral_impact, total_order_impact, total_weight)` for one
relationship (a `None` entry is skipped). -/
def relStep {α : Type} [DecidableEq α] (target_alignments : α → Option (TargetAlign K))
    (acc : K × K × K) (rel : Option (Rel K α)) : K × K × K :=
  match rel with
  | none => acc
  | some r =>
    let moral0 := r.moral_valence.getD 0
    let order := r.order_valence.getD 0
    let weight0 := (|moral0| + |order|) / 2
    let weight := if weight0 < 1/10 then 1/10 else weight0
    let moral :=
      match r.target_id with
      | none => moral0
      | some tid =>
        match target_alignments tid with
        | none => moral0
        | some ta =>
          if r.type = some "killed" ∨ r.type = some "destroyed" ∨ r.type = some "harmed"
          then moral0 - targetGoodEvil ta * (3/10)
          else moral0
    (acc.1 + moral * weight, acc.2.1 + order * weight, acc.2.2 + weight)

/-- Stage 3 `calculate_behavioral_alignment` (lines 290-367).  The base is
the stated score or neutral; an empty relationship list returns the base
unclamped (early return, line 312); otherwise the weighted action impacts
are folded, averaged, scaled by 0.5 and the result clamped to [-1,1]. -/
def calculate_behavioral_alignment {α : Type} [DecidableEq α]
    (stated : Option (Stated K)) (relationships : List (Option (Rel K α)))
    (target_alignments : α → Option (TargetAlign K)) : Axes K :=
  let base_law_chaos : K := match stated with | some s => s.law_chaos | none => 0
  let base_good_evil : K := match stated with | some s => s.good_evil | none => 0
  if relationships = [] then ⟨base_law_chaos, base_good_evil⟩
  else
    let acc := relationships.foldl (relStep target_alignments) (0, 0, 0)
    if 0 < acc.2.2 then
      ⟨clampAxis (base_law_chaos + acc.2.1 / acc.2.2 * (1/2)),
       clampAxis (base_good_evil + acc.1 / acc.2.2 * (1/2))⟩
    else
      ⟨clampAxis base_law_chaos, clampAxis base_good_evil⟩

/-- The ceiling constraint `apply_ceiling_constraint` (lines 370-395):
per axis, a non-negative stated value caps the behavioral value by `min`;
a negative stated value passes the behavioral value through; absent
stated returns the behavioral score unchanged. -/
def apply_ceiling_constraint (stated : Option (Stated K)) (behavioral : Axes K) :
    Axes K :=
  match stated with
  | none => behavioral
  | some s =>
    { law_chaos :=
        if 0 ≤ s.law_chaos then min behavioral.law_chaos s.law_chaos
        else behavioral.law_chaos,
      good_evil :=
        if 0 ≤ s.good_evil then min behavioral.good_evil s.good_evil
        else behavioral.good_evil }

/-- Claim C1: for every behavioral score and stated alignment, when
`stated.good_evil ≥ 0` the final `good_evil` is
`min(behavioral.good_evil, stated.good_evil)` (hence at most the stated
value); when `stated.good_evil < 0` the behavioral value passes through
unchanged; the identical independent rule holds for `law_chaos`; and with
no stated alignment the behavioral score is returned unchanged. -/
theorem apply_ceiling_constraint_spec (K : Type) [LinearOrderedField K]
    (s : Stated K) (b : Axes K) :
    (0 ≤ s.good_evil →
      (apply_ceiling_constraint (some s) b).good_evil = min b.good_evil s.good_evil ∧
      (apply_ceiling_constraint (some s) b).good_evil ≤ s.good_evil) ∧
    (s.good_evil < 0 →
      (apply_ceiling_constraint (some s) b).good_evil = b.good_evil) ∧
    (0 ≤ s.law_chaos →
      (apply_ceiling_constraint (some s) b).law_chaos = min b.law_chaos s.law_chaos ∧
      (apply_ceiling_constraint (some s) b).law_chaos ≤ s.law_chaos) ∧
    (s.law_chaos < 0 →
      (apply_ceiling_constraint (some s) b).law_chaos = b.law_chaos) ∧
    apply_ceiling_constraint (none : Option (Stated K)) b = b := by
  refine ⟨fun h => ?_, fun h => ?_, fun h => ?_, fun h => ?_, rfl⟩
  · exact ⟨by simp [apply_ceiling_constraint, h], by simp [apply_ceiling_constraint, h]⟩
  · simp [apply_ceiling_constraint, not_le.mpr h]
  · exact ⟨by simp [apply_ceiling_constraint, h], by simp [apply_ceiling_constraint, h]⟩
  · simp [apply_ceiling_constraint, not_le.mpr h]

/-- Witness for C1 at a concrete input: stated lawful good `(1, 1)` with
behavioral `(2, -1/2)`. -/
theorem apply_ceiling_constraint_spec_witness :
    (0 ≤ (1 : ℚ) ∧
      (apply_ceiling_constraint (some ⟨1, 1, 1, "explicit"⟩) (⟨2, -1/2⟩ : Axes ℚ)).good_evil
        = min (-1/2 : ℚ) 1) ∧
    (apply_ceiling_constraint (some ⟨1, 1, 1, "explicit"⟩) (⟨2, -1/2⟩ : Axes ℚ)).law_chaos
        = min (2 : ℚ) 1 := by
  refine ⟨⟨by norm_num, ?_⟩, ?_⟩
  · exact ((apply_ceiling_constraint_spec ℚ ⟨1, 1, 1, "explicit"⟩ ⟨2, -1/2⟩).1
      (by norm_num)).1
  · exact (((apply_ceiling_constraint_spec ℚ ⟨1, 1, 1, "explicit"⟩ ⟨2, -1/2⟩).2.2.1
      (by norm_num))).1

/-! ## Drift (`calculate_drift`, lines 398-416)

The Euclidean distance forces real arithmetic, so this stage is embedded
over `ℝ`.  Note the source normalizes by the literal `2.83`, a hard-coded
decimal approximation of the corner-to-corner distance `2·√2 ≈ 2.8284`. -/

/-- Stage 3 `calculate_drift` (lines 398-416): 0 when stated is absent,
else the Euclidean distance between stated and final divided by the
literal `max_distance = 2.83`, capped at 1. -/
noncomputable def calculate_drift (stated : Option (Stated ℝ)) (final : Axes ℝ) : ℝ :=
  match stated with
  | none => 0
  | some s =>
    let law_diff := |s.law_chaos - final.law_chaos|
    let good_diff := |s.good_evil - final.good_evil|
    let distance := Real.sqrt (law_diff ^ 2 + good_diff ^ 2)
    min 1 (distance / 2.83)

theorem sqrt_eight_lt : Real.sqrt 8 < 2.83 := by
  rw [show (2.83 : ℝ) = 283/100 by norm_num, Real.sqrt_lt' (by norm_num)]
  norm_num

theorem sqrt_eight_div_two_sqrt_two : Real.sqrt 8 / (2 * Real.sqrt 2) = 1 := by
  rw [show (8 : ℝ) = 2^2 * 2 by norm_num, Real.sqrt_mul (by positivity),
    Real.sqrt_sq (by norm_num)]
  have h2 : (0:ℝ) < Real.sqrt 2 := Real.sqrt_pos.mpr (by norm_num)
  field_simp

/-- Counterexample to claim C6: at stated `(1,1)` and final `(-1,-1)` the
code's drift (denominator `2.83`) differs from the claimed
`min(1, distance / (2·√2))`: the code returns `√8/2.83 < 1` while the
claimed formula yields exactly 1. -/
theorem calculate_drift_ne_claimed_formula :
    calculate_drift (some ⟨1, 1, 1, "explicit"⟩) ⟨-1, -1⟩ ≠
      min 1 (Real.sqrt ((1 - (-1) : ℝ) ^ 2 + ((1 : ℝ) - (-1)) ^ 2) /
        (2 * Real.sqrt 2)) := by
  have hsum : ((1 - (-1) : ℝ) ^ 2 + ((1 : ℝ) - (-1)) ^ 2) = 8 := by norm_num
  have hlhs : calculate_drift (some ⟨1, 1, 1, "explicit"⟩) ⟨-1, -1⟩ =
      Real.sqrt 8 / 2.83 := by
    simp only [calculate_drift]
    rw [show |(1:ℝ) - (-1)| ^ 2 + |(1:ℝ) - (-1)| ^ 2 = 8 by rw [abs_of_nonneg] <;> norm_num]
    exact min_eq_right (le_of_lt (by
      rw [div_lt_one (by norm_num)]
      exact sqrt_eight_lt))
  have hrhs : min 1 (Real.sqrt ((1 - (-1) : ℝ) ^ 2 + ((1 : ℝ) - (-1)) ^ 2) /
      (2 * Real.sqrt 2)) = 1 := by
    rw [hsum, sqrt_eight_div_two_sqrt_two, min_self]
  rw [hlhs, hrhs]
  have : Real.sqrt 8 / 2.83 < 1 := by
    rw [div_lt_one (by norm_num)]
    exact sqrt_eight_lt
  linarith

/-- Amended claim C6: for every present stated alignment and final score,
`calculate_drift` returns exactly
`min(1, euclidean_distance(stated, final) / 2.83)` — with the literal
`2.83`, a hard-coded approximation of the corner-to-corner distance
`2·√2` — and it returns 0 when stated is absent. -/
theorem calculate_drift_formula (s : Stated ℝ) (f : Axes ℝ) :
    calculate_drift none f = 0 ∧
    calculate_drift (some s) f =
      min 1 (Real.sqrt ((s.law_chaos - f.law_chaos) ^ 2 +
        (s.good_evil - f.good_evil) ^ 2) / 2.83) := by
  constructor
  · rfl
  · simp only [calculate_drift, sq_abs]

/-- Claim C2, the worked example: extraction on "He is a lawful good
paladin." yields stated `(1,1)` with confidence 1; with the single
relationship `killed` (moral −1, order 0) against a target of known final
`good_evil = −1`, the aggregator yields behavioral `(1, 0.65)` (moral
discounted to −0.7, weight 0.5), the ceiling keeps `(1, 0.65)`, and the
drift is `0.35/2.83 = 35/283 ≈ 0.1237` (to four decimal places). -/
theorem worked_example :
    extract_stated_alignment ℚ "He is a lawful good paladin." =
      some ⟨1, 1, 1, "explicit"⟩ ∧
    calculate_behavioral_alignment (some (⟨1, 1, 1, "explicit"⟩ : Stated ℚ))
      [some ⟨some "killed", some (-1), some 0, some "T"⟩]
      (fun t : String => if t = "T" then some ⟨some ⟨0, -1⟩⟩ else none) =
      ⟨1, 13/20⟩ ∧
    apply_ceiling_constraint (some (⟨1, 1, 1, "explicit"⟩ : Stated ℚ)) ⟨1, 13/20⟩ =
      ⟨1, 13/20⟩ ∧
    calculate_drift (some ⟨1, 1, 1, "explicit"⟩) ⟨1, 13/20⟩ = 35/283 ∧
    |(35 : ℝ)/283 - 0.1237| < 1/20000 := by
  refine ⟨by decide, ?_, ?_, ?_, by rw [abs_lt]; constructor <;> norm_num⟩
  · norm_num [calculate_behavioral_alignment, relStep, targetGoodEvil, clampAxis,
      List.foldl]
  · norm_num [apply_ceiling_constraint]
  simp only [calculate_drift]
  rw [show |(1:ℝ) - 1| ^ 2 + |(1:ℝ) - 13/20| ^ 2 = 49/400 by
    rw [show |(1:ℝ) - 1| = 0 by norm_num, show |(1:ℝ) - 13/20| = 7/20 by
      rw [abs_of_nonneg] <;> norm_num]
    norm_num]
  rw [show (49:ℝ)/400 = (7/20)^2 by norm_num, Real.sqrt_sq (by norm_num)]
  rw [min_eq_right (by norm_num)]
  norm_num

/-! ## Stage 2: external classifiers and their caches
(`compute_content_hash`, `compute_relationship_hash`,
`classify_relationship_llm`, `classify_entity_llm`, lines 49-63, 120-287)

The cryptographic digest (`sha256(...).hexdigest()[:16]`) is abstracted
as a function argument `hashFn`; only its determinism is relevant to any
claim.  The whole `try` body — OpenAI call, JSON parsing, float
conversions — is abstracted as a `service : Except Unit raw` argument:
`Except.error` is any raised exception (caught by the `except` clause),
`Except.ok` a successfully parsed response.  Each classifier returns
`(result, updated cache, whether the service was invoked)`. -/

/-- Line 49-55 `compute_content_hash`: digest of the first 2000 characters
of the content. -/
def compute_content_hash (hashFn : String → String) (content : String) : String :=
  hashFn (content.take 2000)

/-- Line 58-63 `compute_relationship_hash`: digest of
`source:target:context[:500]`. -/
def compute_relationship_hash (hashFn : String → String)
    (source_id target_id context : String) : String :=
  hashFn (source_id ++ ":" ++ target_id ++ ":" ++ context.take 500)

/-- Association-list lookup, newest entry first (dict semantics where
assignment overwrites). -/
def cacheLookup {β : Type} (cache : List (String × β)) (h : String) : Option β :=
  (cache.find? (fun e => e.1 = h)).map (fun e => e.2)

/-- Dict assignment `cache[h] = v`: the new binding shadows any older one. -/
def cacheInsert {β : Type} (cache : List (String × β)) (h : String) (v : β) :
    List (String × β) :=
  (h, v) :: cache

theorem cacheLookup_insert {β : Type} (cache : List (String × β)) (h : String) (v : β) :
    cacheLookup (cacheInsert cache h v) h = some v := by
  simp [cacheLookup, cacheInsert, List.find?]

/-- The numeric fields of a parsed entity-classification response, each
read with `result.get(key, default)`; an adversarial service may return
any values here. -/
structure RawEntity (K : Type) where
  law_chaos : Option K
  good_evil : Option K
  confidence : Option K

/-- Lines 268-273: the alignment built from a service response, with every
numeric field defensively clamped (confidence defaults to 0.5). -/
def mkEntityAlignment (raw : RawEntity K) : Stated K :=
  { law_chaos := clampAxis (raw.law_chaos.getD 0),
    good_evil := clampAxis (raw.good_evil.getD 0),
    confidence := clampConf (raw.confidence.getD (1/2)),
    source := "llm" }

/-- A cached entity entry (lines 276-280); the `timestamp` field is
dropped.  `alignment` is optional because the hit path reads it with
`cached.get("alignment")`. -/
structure EntityEntry (K : Type) where
  alignment : Option (Stated K)
  title : String

/-- Lines 204-287 `classify_entity_llm`: guard on empty key/content, cache
lookup by content hash, then — only on a miss — the service call, whose
failure is caught and converted to `none` and whose success is clamped,
cached and returned. -/
def classify_entity_llm (hashFn : String → String) (title content api_key : String)
    (cache : List (String × EntityEntry K)) (service : Except Unit (RawEntity K)) :
    Option (Stated K) × List (String × EntityEntry K) × Bool :=
  if api_key = "" ∨ content = "" then (none, cache, false)
  else
    let content_hash := compute_content_hash hashFn content
    match cacheLookup cache content_hash with
    | some cached => (cached.alignment, cache, false)
    | none =>
      match service with
      | Except.error _ => (none, cache, true)
      | Except.ok raw =>
        let alignment := mkEntityAlignment raw
        (some alignment, cacheInsert cache content_hash ⟨some alignment, title⟩, true)

/-- A parsed relationship-classification response: the numeric valences
(read with defaults) plus the pass-through `type` and `summary` fields. -/
structure RawRel (K : Type) where
  type : Option String
  moral_valence : Option K
  order_valence : Option K
  summary : Option String

/-- The relationship result after lines 185-186 mutate the parsed JSON:
both valences clamped into [-1,1], other fields untouched. -/
structure RelResult (K : Type) where
  type : Option String
  moral_valence : K
  order_valence : K
  summary : Option String

/-- Lines 185-186: clamp the two numeric fields of the response. -/
def mkRelResult (raw : RawRel K) : RelResult K :=
  { type := raw.type,
    moral_valence := clampAxis (raw.moral_valence.getD 0),
    order_valence := clampAxis (raw.order_valence.getD 0),
    summary := raw.summary }

/-- A cached relationship entry (lines 189-194), sans timestamp. -/
structure RelEntry (K : Type) where
  result : Option (RelResult K)
  source : String
  target : String

/-- Lines 120-201 `classify_relationship_llm`: guard on empty key, cache
lookup by relationship hash, then — only on a miss — the service call,
with failure caught to `none` and success clamped, cached and returned. -/
def classify_relationship_llm (hashFn : String → String)
    (source_title target_title context api_key : String)
    (cache : List (String × RelEntry K)) (service : Except Unit (RawRel K)) :
    Option (RelResult K) × List (String × RelEntry K) × Bool :=
  if api_key = "" then (none, cache, false)
  else
    let rel_hash := compute_relationship_hash hashFn source_title target_title context
    match cacheLookup cache rel_hash with
    | some cached => (cached.result, cache, false)
    | none =>
      match service with
      | Except.error _ => (none, cache, true)
      | Except.ok raw =>
        let result := mkRelResult raw
        (some result, cacheInsert cache rel_hash ⟨some result, source_title, target_title⟩,
          true)

/-- Claim C7: whatever numeric values the external service returns — even
adversarial out-of-range ones — the entity result that is returned and
written into the cache has `law_chaos`, `good_evil` in [-1,1] and
`confidence` in [0,1], and the relationship result that is returned and
cached has both valences in [-1,1]. -/
theorem classify_llm_clamps (K : Type) [LinearOrderedField K]
    (raw : RawEntity K) (rr : RawRel K) (hashFn : String → String)
    (title content api_key source_title target_title context : String)
    (cache : List (String × EntityEntry K)) (relcache : List (String × RelEntry K))
    (hkey : api_key ≠ "") (hcontent : content ≠ "")
    (hmiss : cacheLookup cache (compute_content_hash hashFn content) = none)
    (hmissR : cacheLookup relcache
      (compute_relationship_hash hashFn source_title target_title context) = none) :
    (-1 ≤ (mkEntityAlignment raw).law_chaos ∧ (mkEntityAlignment raw).law_chaos ≤ 1) ∧
    (-1 ≤ (mkEntityAlignment raw).good_evil ∧ (mkEntityAlignment raw).good_evil ≤ 1) ∧
    (0 ≤ (mkEntityAlignment raw).confidence ∧ (mkEntityAlignment raw).confidence ≤ 1) ∧
    (-1 ≤ (mkRelResult rr).moral_valence ∧ (mkRelResult rr).moral_valence ≤ 1) ∧
    (-1 ≤ (mkRelResult rr).order_valence ∧ (mkRelResult rr).order_valence ≤ 1) ∧
    (classify_entity_llm hashFn title content api_key cache (Except.ok raw)).1 =
      some (mkEntityAlignment raw) ∧
    cacheLookup (classify_entity_llm hashFn title content api_key cache
        (Except.ok raw)).2.1 (compute_content_hash hashFn content) =
      some ⟨some (mkEntityAlignment raw), title⟩ ∧
    (classify_relationship_llm hashFn source_title target_title context api_key
        relcache (Except.ok rr)).1 = some (mkRelResult rr) ∧
    cacheLookup (classify_relationship_llm hashFn source_title target_title context
        api_key relcache (Except.ok rr)).2.1
      (compute_relationship_hash hashFn source_title target_title context) =
      some ⟨some (mkRelResult rr), source_title, target_title⟩ := by
  have hguard : ¬(api_key = "" ∨ content = "") := by
    rintro (h | h) <;> [exact hkey h; exact hcontent h]
  have hent : classify_entity_llm hashFn title content api_key cache (Except.ok raw) =
      (some (mkEntityAlignment raw),
        cacheInsert cache (compute_content_hash hashFn content)
          ⟨some (mkEntityAlignment raw), title⟩, true) := by
    simp [classify_entity_llm, hguard, hmiss, cacheInsert]
  have hrel : classify_relationship_llm hashFn source_title target_title context
      api_key relcache (Except.ok rr) =
      (some (mkRelResult rr),
        cacheInsert relcache
          (compute_relationship_hash hashFn source_title target_title context)
          ⟨some (mkRelResult rr), source_title, target_title⟩, true) := by
    simp [classify_relationship_llm, hkey, hmissR, cacheInsert]
  refine ⟨clampAxis_mem _, clampAxis_mem _, clampConf_mem _, clampAxis_mem _,
    clampAxis_mem _, ?_, ?_, ?_, ?_⟩
  · rw [hent]
  · rw [hent]; exact cacheLookup_insert _ _ _
  · rw [hrel]
  · rw [hrel]; exact cacheLookup_insert _ _ _

/-- Witness for C7: an adversarial response with every numeric field out
of range, at concrete inputs. -/
theorem classify_llm_clamps_witness :
    ("k" : String) ≠ "" ∧ ("c" : String) ≠ "" ∧
    (-1 ≤ (mkEntityAlignment (⟨some 5, some (-3), some 7⟩ : RawEntity ℚ)).law_chaos ∧
      (mkEntityAlignment (⟨some 5, some (-3), some 7⟩ : RawEntity ℚ)).law_chaos ≤ 1) ∧
    (0 ≤ (mkEntityAlignment (⟨some 5, some (-3), some 7⟩ : RawEntity ℚ)).confidence ∧
      (mkEntityAlignment (⟨some 5, some (-3), some 7⟩ : RawEntity ℚ)).confidence ≤ 1) ∧
    (-1 ≤ (mkRelResult (⟨some "killed", some (-9), some 9, none⟩ : RawRel ℚ)).moral_valence ∧
      (mkRelResult (⟨some "killed", some (-9), some 9, none⟩ : RawRel ℚ)).moral_valence ≤ 1) := by
  have h := classify_llm_clamps ℚ ⟨some 5, some (-3), some 7⟩
    ⟨some "killed", some (-9), some 9, none⟩ id "t" "c" "k" "s" "u" "x" [] []
    (by decide) (by decide) rfl rfl
  exact ⟨by decide, by decide, h.1, h.2.2.1, h.2.2.2.1⟩

/-- Claim C8: every failure of the external service (any exception raised
inside the `try` block: network error, timeout, malformed or non-JSON
response) is caught and converted into an absent result by both
classifiers; the cache is left unchanged and no error escapes. -/
theorem classify_llm_failure_absent (K : Type) [LinearOrderedField K]
    (hashFn : String → String)
    (title content api_key source_title target_title context : String)
    (cache : List (String × EntityEntry K)) (relcache : List (String × RelEntry K))
    (e e2 : Unit)
    (hkey : api_key ≠ "") (hcontent : content ≠ "")
    (hmiss : cacheLookup cache (compute_content_hash hashFn content) = none)
    (hmissR : cacheLookup relcache
      (compute_relationship_hash hashFn source_title target_title context) = none) :
    classify_entity_llm hashFn title content api_key cache
      (Except.error e : Except Unit (RawEntity K)) = (none, cache, true) ∧
    classify_relationship_llm hashFn source_title target_title context api_key
      relcache (Except.error e2 : Except Unit (RawRel K)) = (none, relcache, true) := by
  have hguard : ¬(api_key = "" ∨ content = "") := by
    rintro (h | h) <;> [exact hkey h; exact hcontent h]
  constructor
  · simp [classify_entity_llm, hguard, hmiss]
  · simp [classify_relationship_llm, hkey, hmissR]

/-- Witness for C8 at concrete inputs with empty caches. -/
theorem classify_llm_failure_absent_witness :
    ("k" : String) ≠ "" ∧
    classify_entity_llm id "t" "c" "k" ([] : List (String × EntityEntry ℚ))
      (Except.error ()) = (none, [], true) := by
  have h := classify_llm_failure_absent ℚ id "t" "c" "k" "s" "u" "x" [] [] () ()
    (by decide) (by decide) rfl rfl
  exact ⟨by decide, h.1⟩

/-- Counterexample to claim C9: when the first call's service invocation
fails, nothing is cached, so classifying the identical (title, content)
pair twice invokes the external service twice — not at most once.
Concretely: key "k", title "t", content "c", empty cache, failing
service on both calls. -/
theorem classify_entity_llm_two_invocations :
    ¬((classify_entity_llm id "t" "c" "k" ([] : List (String × EntityEntry ℚ))
        (Except.error ())).2.2.toNat +
      ((classify_entity_llm id "t" "c" "k"
          (classify_entity_llm id "t" "c" "k" ([] : List (String × EntityEntry ℚ))
            (Except.error ())).2.1
          (Except.error ())).2.2.toNat) ≤ 1) := by
  have h1 : classify_entity_llm id "t" "c" "k" ([] : List (String × EntityEntry ℚ))
      (Except.error ()) = (none, [], true) := by
    simp [classify_entity_llm, cacheLookup]
  rw [h1]
  simp [h1]

/-- Amended claim C9: given a non-empty API key (and, for the entity
classifier, non-empty content), a cache hit under the derived hash makes
each classifier return the cached result verbatim, with the cache
unchanged and the external service not invoked; consequently classifying
the identical (title, content) pair twice, where the first call's service
invocation succeeds, invokes the external service exactly once, and the
second call returns the result the first call cached. -/
theorem classify_llm_cache_round_trip (K : Type) [LinearOrderedField K]
    (hashFn : String → String) (title content api_key : String)
    (source_title target_title context : String)
    (cacheHit : List (String × EntityEntry K)) (entry : EntityEntry K)
    (relcacheHit : List (String × RelEntry K)) (rentry : RelEntry K)
    (cache : List (String × EntityEntry K)) (raw : RawEntity K)
    (service service2 : Except Unit (RawEntity K)) (relservice : Except Unit (RawRel K))
    (hkey : api_key ≠ "") (hcontent : content ≠ "")
    (hhit : cacheLookup cacheHit (compute_content_hash hashFn content) = some entry)
    (hhitR : cacheLookup relcacheHit
      (compute_relationship_hash hashFn source_title target_title context) = some rentry)
    (hmiss : cacheLookup cache (compute_content_hash hashFn content) = none) :
    classify_entity_llm hashFn title content api_key cacheHit service =
      (entry.alignment, cacheHit, false) ∧
    classify_relationship_llm hashFn source_title target_title context api_key
      relcacheHit relservice = (rentry.result, relcacheHit, false) ∧
    (classify_entity_llm hashFn title content api_key cache (Except.ok raw)).2.2 = true ∧
    classify_entity_llm hashFn title content api_key
      (classify_entity_llm hashFn title content api_key cache (Except.ok raw)).2.1
      service2 =
      (some (mkEntityAlignment raw),
        (classify_entity_llm hashFn title content api_key cache (Except.ok raw)).2.1,
        false) := by
  have hguard : ¬(api_key = "" ∨ content = "") := by
    rintro (h | h) <;> [exact hkey h; exact hcontent h]
  have hent : classify_entity_llm hashFn title content api_key cache (Except.ok raw) =
      (some (mkEntityAlignment raw),
        cacheInsert cache (compute_content_hash hashFn content)
          ⟨some (mkEntityAlignment raw), title⟩, true) := by
    simp [classify_entity_llm, hguard, hmiss, cacheInsert]
  refine ⟨?_, ?_, ?_, ?_⟩
  · simp [classify_entity_llm, hguard, hhit]
  · simp [classify_relationship_llm, hkey, hhitR]
  · rw [hent]
  · rw [hent]
    simp [classify_entity_llm, hguard, cacheLookup_insert]

/-- Witness for the amended C9 at concrete inputs: a cache holding an
entry for the hash of "c", and a miss-then-success round trip. -/
theorem classify_llm_cache_round_trip_witness :
    ("k" : String) ≠ "" ∧
    classify_entity_llm id "t" "c" "k"
      [("c", (⟨some ⟨1, 0, 1, "llm"⟩, "old"⟩ : EntityEntry ℚ))] (Except.error ()) =
      (some ⟨1, 0, 1, "llm"⟩, [("c", ⟨some ⟨1, 0, 1, "llm"⟩, "old"⟩)], false) ∧
    classify_entity_llm id "t" "c" "k"
      (classify_entity_llm id "t" "c" "k" ([] : List (String × EntityEntry ℚ))
        (Except.ok ⟨some 1, some 1, some 1⟩)).2.1 (Except.error ()) =
      (some (mkEntityAlignment (⟨some 1, some 1, some 1⟩ : RawEntity ℚ)),
        (classify_entity_llm id "t" "c" "k" ([] : List (String × EntityEntry ℚ))
          (Except.ok ⟨some 1, some 1, some 1⟩)).2.1, false) := by
  have h := classify_llm_cache_round_trip ℚ id "t" "c" "k" "s" "u" "x"
    [("c", ⟨some ⟨1, 0, 1, "llm"⟩, "old"⟩)] ⟨some ⟨1, 0, 1, "llm"⟩, "old"⟩
    [("s:u:x", ⟨none, "s", "u"⟩)] ⟨none, "s", "u"⟩
    [] ⟨some 1, some 1, some 1⟩ (Except.error ()) (Except.error ()) (Except.error ())
    (by decide) (by decide)
    (by simp only [compute_content_hash, String.take_eq]; rfl)
    (by simp only [compute_relationship_hash, String.take_eq]; rfl)
    rfl
  exact ⟨by decide, h.1, h.2.2.2⟩

/-- Claim C10: the entity cache is keyed only by the digest of the first
2000 characters of the content.  Once a first call has cached a result,
any second call whose content agrees on the first 2000 characters gets
that same cached alignment back — regardless of its title and of any
content difference beyond character 2000 — without invoking the service. -/
theorem classify_entity_llm_key_ignores_title_and_tail (K : Type)
    [LinearOrderedField K] (hashFn : String → String)
    (title1 content1 title2 content2 api_key : String)
    (cache : List (String × EntityEntry K)) (raw : RawEntity K)
    (service2 : Except Unit (RawEntity K))
    (hkey : api_key ≠ "") (hcontent : content1 ≠ "")
    (hmiss : cacheLookup cache (compute_content_hash hashFn content1) = none)
    (hsame : content2.take 2000 = content1.take 2000) :
    classify_entity_llm hashFn title2 content2 api_key
      (classify_entity_llm hashFn title1 content1 api_key cache (Except.ok raw)).2.1
      service2 =
      (some (mkEntityAlignment raw),
        (classify_entity_llm hashFn title1 content1 api_key cache (Except.ok raw)).2.1,
        false) := by
  have hcontent2 : content2 ≠ "" := by
    intro h2
    apply hcontent
    have htake : content1.take 2000 = "" := by
      rw [← hsame, h2, String.take_eq]
      rfl
    have hdata : (content1.take 2000).1 = ("" : String).1 := by rw [htake]
    rw [String.data_take] at hdata
    have h3 : content1.1 = [] := by
      rcases List.take_eq_nil_iff.mp hdata with h4 | h4
      · exact absurd h4 (by norm_num)
      · exact h4
    cases content1
    simp_all
  have hguard1 : ¬(api_key = "" ∨ content1 = "") := by
    rintro (h | h) <;> [exact hkey h; exact hcontent h]
  have hguard2 : ¬(api_key = "" ∨ content2 = "") := by
    rintro (h | h) <;> [exact hkey h; exact hcontent2 h]
  have hhash : compute_content_hash hashFn content2 =
      compute_content_hash hashFn content1 := by
    simp [compute_content_hash, hsame]
  have hent : classify_entity_llm hashFn title1 content1 api_key cache
      (Except.ok raw) =
      (some (mkEntityAlignment raw),
        cacheInsert cache (compute_content_hash hashFn content1)
          ⟨some (mkEntityAlignment raw), title1⟩, true) := by
    simp [classify_entity_llm, hguard1, hmiss, cacheInsert]
  rw [hent]
  simp [classify_entity_llm, hguard2, hhash, cacheLookup_insert]

/-- Witness for C10: same content, different titles — the second call is
answered from the cache written by the first. -/
theorem classify_entity_llm_key_ignores_title_and_tail_witness :
    ("k" : String) ≠ "" ∧ ("abc" : String) ≠ "" ∧
    ("abc" : String).take 2000 = ("abc" : String).take 2000 ∧
    classify_entity_llm id "Bob" "abc" "k"
      (classify_entity_llm id "Alice" "abc" "k" ([] : List (String × EntityEntry ℚ))
        (Except.ok ⟨some 2, some 0, none⟩)).2.1 (Except.error ()) =
      (some (mkEntityAlignment (⟨some 2, some 0, none⟩ : RawEntity ℚ)),
        (classify_entity_llm id "Alice" "abc" "k" ([] : List (String × EntityEntry ℚ))
          (Except.ok ⟨some 2, some 0, none⟩)).2.1, false) := by
  refine ⟨by decide, by decide, rfl, ?_⟩
  exact classify_entity_llm_key_ignores_title_and_tail ℚ id "Alice" "abc" "Bob" "abc"
    "k" [] ⟨some 2, some 0, none⟩ (Except.error ()) (by decide) (by decide) rfl rfl

/-! ## Stage 4: propagation (`propagate_alignments`, lines 419-481)

Node identifiers are an opaque type `α` with decidable equality.  An edge
is a pair of optional endpoint identifiers (the Python code accepts a
bare id or an id-bearing object and skips a link when either extracted
endpoint is falsy; the extraction is modelled as already done, a missing
endpoint as `none`).  The mutable node list is modelled as a state
function `α → Option (NodeAlign K)`; only identifiers in `nodes` are ever
written, matching iteration over the node list, and lookups through
`node_map` read the same state. -/

/-- The alignment record stored on a node (`node["alignment"]`). -/
structure NodeAlign (K : Type) where
  stated : Option (Axes K)
  behavioral : Axes K
  final : Axes K
  confidence : K
  drift : K
  source : String
deriving DecidableEq

variable {α : Type} [DecidableEq α]

/-- The undirected adjacency of lines 427-434: per link, in list order,
`adjacency[source].append(target)` then `adjacency[target].append(source)`,
skipping links with a missing endpoint; restricted to one node's list. -/
def neighborIds (links : List (Option α × Option α)) (id : α) : List α :=
  links.foldl
    (fun acc l =>
      match l with
      | (some s, some t) =>
        acc ++ (if s = id then [t] else []) ++ (if t = id then [s] else [])
      | _ => acc) []

/-- Lines 450-459: the `(final axes, confidence)` pairs of the neighbors
that already carry an alignment. -/
def gatherNeighborAligns (links : List (Option α × Option α))
    (m : α → Option (NodeAlign K)) (id : α) : List (Axes K × K) :=
  (neighborIds links id).filterMap
    (fun nb => (m nb).map (fun a => (a.final, a.confidence)))

/-- Lines 468-475: the alignment assigned to a newly propagated node. -/
def propagatedAlign (avg : Axes K) : NodeAlign K :=
  ⟨none, avg, avg, 3/10, 0, "propagated"⟩

/-- The per-node body of the round loop (lines 442-476): a node that
already has an alignment is skipped; otherwise, if it has at least one
aligned neighbor and their total confidence is positive, it receives the
confidence-weighted average of their finals and the change counter is
bumped. -/
def processNode (links : List (Option α × Option α))
    (st : (α → Option (NodeAlign K)) × Nat) (id : α) :
    (α → Option (NodeAlign K)) × Nat :=
  match st.1 id with
  | some _ => st
  | none =>
    let na := gatherNeighborAligns links st.1 id
    if na.isEmpty then st
    else
      let total_weight := (na.map Prod.snd).sum
      if 0 < total_weight then
        let avg_law := (na.map (fun p => p.1.law_chaos * p.2)).sum / total_weight
        let avg_good := (na.map (fun p => p.1.good_evil * p.2)).sum / total_weight
        (Function.update st.1 id (some (propagatedAlign ⟨avg_law, avg_good⟩)), st.2 + 1)
      else st

/-- One full round over the node list (lines 439-476), returning the new
state and the `changes` counter. -/
def propagateRound (nodes : List α) (links : List (Option α × Option α))
    (m : α → Option (NodeAlign K)) : (α → Option (NodeAlign K)) × Nat :=
  nodes.foldl (processNode links) (m, 0)

/-- The `for iteration in range(max_iterations)` loop with its
`if changes == 0: break`. -/
def propagateLoop (nodes : List α) (links : List (Option α × Option α)) :
    Nat → (α → Option (NodeAlign K)) → α → Option (NodeAlign K)
  | 0, m => m
  | fuel + 1, m =>
    let r := propagateRound nodes links m
    if r.2 = 0 then r.1 else propagateLoop nodes links fuel r.1

/-- Stage 4 `propagate_alignments` (lines 419-481) with its default
`max_iterations = 10`. -/
def propagate_alignments (nodes : List α) (links : List (Option α × Option α))
    (m : α → Option (NodeAlign K)) (max_iterations : Nat) :
    α → Option (NodeAlign K) :=
  propagateLoop nodes links max_iterations m

/-- Connectivity to a seed in at most `k` undirected steps, the notion of
"same connected component as a classified node" used by claim C3. -/
def connB (links : List (Option α × Option α)) (seed : α → Bool) :
    Nat → α → Bool
  | 0, v => seed v
  | k + 1, v => connB links seed k v ||
      (neighborIds links v).any (fun u => connB links seed k u)

/-- Connectivity as `connB`, but each non-seed step must land on a member
of the node list (only listed nodes are processed by a round). -/
def reachB (nodes : List α) (links : List (Option α × Option α))
    (seed : α → Bool) : Nat → α → Bool
  | 0, v => seed v
  | k + 1, v => reachB nodes links seed k v ||
      (decide (v ∈ nodes) && (neighborIds links v).any (fun u => reachB nodes links seed k u))

/-! ### Lemmas about one propagation step -/

/-- The condition under which the round body assigns a value to `id`. -/
def assignCondition (links : List (Option α × Option α))
    (m : α → Option (NodeAlign K)) (id : α) : Prop :=
  m id = none ∧ (gatherNeighborAligns links m id).isEmpty = false ∧
    0 < ((gatherNeighborAligns links m id).map Prod.snd).sum

/-- The confidence-weighted average the round body assigns. -/
def avgOf (links : List (Option α × Option α)) (m : α → Option (NodeAlign K))
    (id : α) : Axes K :=
  ⟨((gatherNeighborAligns links m id).map (fun p => p.1.law_chaos * p.2)).sum /
      ((gatherNeighborAligns links m id).map Prod.snd).sum,
    ((gatherNeighborAligns links m id).map (fun p => p.1.good_evil * p.2)).sum /
      ((gatherNeighborAligns links m id).map Prod.snd).sum⟩

theorem processNode_of_assign (links : List (Option α × Option α))
    (m : α → Option (NodeAlign K)) (id : α) (c : Nat)
    (h : assignCondition links m id) :
    processNode links (m, c) id =
      (Function.update m id (some (propagatedAlign (avgOf links m id))), c + 1) := by
  obtain ⟨h1, h2, h3⟩ := h
  simp only [processNode, h1, h2, avgOf]
  simp [h3]

theorem processNode_of_not_assign (links : List (Option α × Option α))
    (m : α → Option (NodeAlign K)) (id : α) (c : Nat)
    (h : ¬ assignCondition links m id) :
    processNode links (m, c) id = (m, c) := by
  unfold assignCondition at h
  push_neg at h
  simp only [processNode]
  cases hm : m id with
  | some b => rfl
  | none =>
    simp only []
    by_cases he : (gatherNeighborAligns links m id).isEmpty
    · simp [he]
    · have h3 := h hm (by simpa using he)
      simp [he, not_lt.mpr h3]

theorem processNode_dichotomy (links : List (Option α × Option α))
    (st : (α → Option (NodeAlign K)) × Nat) (id : α) :
    processNode links st id = st ∨
      (assignCondition links st.1 id ∧
        processNode links st id =
          (Function.update st.1 id (some (propagatedAlign (avgOf links st.1 id))),
            st.2 + 1)) := by
  obtain ⟨m, c⟩ := st
  by_cases h : assignCondition links m id
  · exact Or.inr ⟨h, processNode_of_assign links m id c h⟩
  · exact Or.inl (processNode_of_not_assign links m id c h)

theorem processNode_preserves {links : List (Option α × Option α)}
    {st : (α → Option (NodeAlign K)) × Nat} {id x : α} {a : NodeAlign K}
    (h : st.1 x = some a) : (processNode links st id).1 x = some a := by
  rcases processNode_dichotomy links st id with heq | ⟨⟨hnone, _, _⟩, heq⟩
  · rw [heq]; exact h
  · rw [heq]
    by_cases hx : x = id
    · subst hx; rw [h] at hnone; cases hnone
    · simp [Function.update_apply, hx, h]

theorem foldl_processNode_preserves (links : List (Option α × Option α))
    (l : List α) (st : (α → Option (NodeAlign K)) × Nat) {x : α} {a : NodeAlign K}
    (h : st.1 x = some a) : ((l.foldl (processNode links) st).1) x = some a := by
  induction l generalizing st with
  | nil => exact h
  | cons w l ih => exact ih _ (processNode_preserves h)

theorem propagateRound_preserves (links : List (Option α × Option α))
    (nodes : List α) {m : α → Option (NodeAlign K)} {x : α} {a : NodeAlign K}
    (h : m x = some a) : (propagateRound nodes links m).1 x = some a :=
  foldl_processNode_preserves links nodes (m, 0) h

theorem propagateLoop_preserves (links : List (Option α × Option α))
    (nodes : List α) (fuel : Nat) {m : α → Option (NodeAlign K)} {x : α}
    {a : NodeAlign K} (h : m x = some a) :
    propagateLoop nodes links fuel m x = some a := by
  induction fuel generalizing m with
  | zero => exact h
  | succ fuel ih =>
    simp only [propagateLoop]
    by_cases hz : (propagateRound nodes links m).2 = 0
    · simp only [hz, if_pos rfl]
      exact propagateRound_preserves links nodes h
    · simp only [if_neg hz]
      exact ih (propagateRound_preserves links nodes h)

/-! ### Invariants preserved by propagation -/

/-- A property holding of every aligned node of a state. -/
def AlignedInv (P : α → NodeAlign K → Prop) (m : α → Option (NodeAlign K)) : Prop :=
  ∀ v a, m v = some a → P v a

/-- A property `P` survives a round when it holds of every value freshly
assigned from a state that satisfies it. -/
def NewOk (links : List (Option α × Option α)) (P : α → NodeAlign K → Prop) : Prop :=
  ∀ (m : α → Option (NodeAlign K)) (id : α), AlignedInv P m →
    assignCondition links m id → P id (propagatedAlign (avgOf links m id))

theorem processNode_inv {links : List (Option α × Option α)}
    {P : α → NodeAlign K → Prop} (hP : NewOk links P)
    {st : (α → Option (NodeAlign K)) × Nat} (hst : AlignedInv P st.1) (id : α) :
    AlignedInv P (processNode links st id).1 := by
  rcases processNode_dichotomy links st id with heq | ⟨hc, heq⟩
  · rw [heq]; exact hst
  · intro v a hv
    rw [heq] at hv
    have hv' : Function.update st.1 id
        (some (propagatedAlign (avgOf links st.1 id))) v = some a := hv
    rw [Function.update_apply] at hv'
    by_cases hx : v = id
    · subst hx
      rw [if_pos rfl] at hv'
      injection hv' with h
      rw [← h]
      exact hP st.1 v hst hc
    · rw [if_neg hx] at hv'
      exact hst v a hv'

theorem foldl_processNode_inv {links : List (Option α × Option α)}
    {P : α → NodeAlign K → Prop} (hP : NewOk links P) (l : List α)
    (st : (α → Option (NodeAlign K)) × Nat) (hst : AlignedInv P st.1) :
    AlignedInv P ((l.foldl (processNode links) st).1) := by
  induction l generalizing st with
  | nil => exact hst
  | cons w l ih => exact ih _ (processNode_inv hP hst w)

theorem propagateRound_inv {links : List (Option α × Option α)}
    {P : α → NodeAlign K → Prop} (hP : NewOk links P) (nodes : List α)
    {m : α → Option (NodeAlign K)} (hm : AlignedInv P m) :
    AlignedInv P (propagateRound nodes links m).1 :=
  foldl_processNode_inv hP nodes (m, 0) hm

theorem propagateLoop_inv {links : List (Option α × Option α)}
    {P : α → NodeAlign K → Prop} (hP : NewOk links P) (nodes : List α)
    (fuel : Nat) {m : α → Option (NodeAlign K)} (hm : AlignedInv P m) :
    AlignedInv P (propagateLoop nodes links fuel m) := by
  induction fuel generalizing m with
  | zero => exact hm
  | succ fuel ih =>
    simp only [propagateLoop]
    by_cases hz : (propagateRound nodes links m).2 = 0
    · simp only [hz, if_pos rfl]
      exact propagateRound_inv hP nodes hm
    · simp only [if_neg hz]
      exact ih (propagateRound_inv hP nodes hm)

/-! ### A round with zero changes is a fixpoint -/

theorem foldl_processNode_counter (links : List (Option α × Option α))
    (l : List α) (st : (α → Option (NodeAlign K)) × Nat) :
    st.2 ≤ (l.foldl (processNode links) st).2 ∧
      ((l.foldl (processNode links) st).2 = st.2 →
        (l.foldl (processNode links) st).1 = st.1 ∧
        ∀ w ∈ l, ¬ assignCondition links st.1 w) := by
  induction l generalizing st with
  | nil => exact ⟨le_refl _, fun _ => ⟨rfl, by simp⟩⟩
  | cons w l ih =>
    rw [List.foldl_cons]
    rcases processNode_dichotomy links st w with heq | ⟨hc, heq⟩
    · rw [heq]
      obtain ⟨h1, h2⟩ := ih st
      refine ⟨h1, fun hz => ⟨(h2 hz).1, ?_⟩⟩
      intro u hu
      rcases List.mem_cons.mp hu with rfl | hu2
      · intro hcu
        have hassign := processNode_of_assign links st.1 u st.2 hcu
        rw [Prod.mk.eta] at hassign
        rw [heq] at hassign
        have hsnd := congrArg Prod.snd hassign
        simp at hsnd
      · exact (h2 hz).2 u hu2
    · rw [heq]
      obtain ⟨h1, h2⟩ :=
        ih (Function.update st.1 w (some (propagatedAlign (avgOf links st.1 w))),
          st.2 + 1)
      have h3 : st.2 + 1 ≤ (l.foldl (processNode links)
          (Function.update st.1 w (some (propagatedAlign (avgOf links st.1 w))),
            st.2 + 1)).2 := h1
      constructor
      · omega
      · intro hz
        omega

theorem propagateRound_zero_fixpoint (links : List (Option α × Option α))
    (nodes : List α) (m : α → Option (NodeAlign K))
    (hz : (propagateRound nodes links m).2 = 0) :
    (propagateRound nodes links m).1 = m ∧
      ∀ w ∈ nodes, ¬ assignCondition links m w := by
  have h := foldl_processNode_counter links nodes (m, (0 : Nat))
  exact h.2 hz

/-! ### Establishing the assignment condition from an aligned neighbor -/

/-- Positive confidence on every aligned node; direct classification and
propagation both maintain it (propagated confidence is 0.3). -/
def PosConf : α → NodeAlign K → Prop := fun _ a => 0 < a.confidence

theorem newOk_posConf (links : List (Option α × Option α)) :
    NewOk links (PosConf (α := α) (K := K)) := by
  intro m id _ _
  show (0 : K) < 3/10
  norm_num

theorem mem_gather {links : List (Option α × Option α)}
    {m : α → Option (NodeAlign K)} {v u : α} {a : NodeAlign K}
    (hu : u ∈ neighborIds links v) (hm : m u = some a) :
    (a.final, a.confidence) ∈ gatherNeighborAligns links m v := by
  simp only [gatherNeighborAligns, List.mem_filterMap]
  exact ⟨u, hu, by simp [hm]⟩

theorem gather_elem_conf_pos {links : List (Option α × Option α)}
    {m : α → Option (NodeAlign K)} {v : α}
    (hinv : AlignedInv (PosConf (α := α) (K := K)) m) :
    ∀ p ∈ gatherNeighborAligns links m v, 0 < p.2 := by
  intro p hp
  simp only [gatherNeighborAligns, List.mem_filterMap] at hp
  obtain ⟨u, _, hu⟩ := hp
  obtain ⟨b, hb, rfl⟩ := Option.map_eq_some'.mp hu
  exact hinv u b hb

theorem sum_pos_of_forall_pos {l : List K} (h : ∀ x ∈ l, 0 < x) (hne : l ≠ []) :
    0 < l.sum := by
  induction l with
  | nil => exact absurd rfl hne
  | cons x l ih =>
    have hx := h x (by simp)
    have hl : 0 ≤ l.sum := by
      rcases eq_or_ne l [] with rfl | hne2
      · simp
      · exact le_of_lt (ih (fun y hy => h y (by simp [hy])) hne2)
    simpa using add_pos_of_pos_of_nonneg hx hl

theorem assign_of_neighbor {links : List (Option α × Option α)}
    {m : α → Option (NodeAlign K)} {v u : α} {a : NodeAlign K}
    (hinv : AlignedInv (PosConf (α := α) (K := K)) m)
    (hv : m v = none) (hu : u ∈ neighborIds links v) (hm : m u = some a) :
    assignCondition links m v := by
  have hmem := mem_gather hu hm
  have hne : gatherNeighborAligns links m v ≠ [] := by
    intro h
    rw [h] at hmem
    cases hmem
  refine ⟨hv, by simpa [List.isEmpty_iff] using hne, ?_⟩
  apply sum_pos_of_forall_pos
  · intro x hx
    simp only [List.mem_map] at hx
    obtain ⟨p, hp, rfl⟩ := hx
    exact gather_elem_conf_pos hinv p hp
  · simpa using hne

/-! ### Coverage: a round aligns every listed node with an aligned neighbor -/

theorem fold_covers {links : List (Option α × Option α)} (l : List α)
    (st : (α → Option (NodeAlign K)) × Nat) {u v : α} {a : NodeAlign K}
    (hinv : AlignedInv (PosConf (α := α) (K := K)) st.1)
    (hu : st.1 u = some a) (hnb : u ∈ neighborIds links v) (hv : v ∈ l) :
    ((l.foldl (processNode links) st).1 v).isSome := by
  induction l generalizing st a with
  | nil => cases hv
  | cons w l ih =>
    rw [List.foldl_cons]
    have hinv2 : AlignedInv (PosConf (α := α) (K := K))
        (processNode links st w).1 := processNode_inv (newOk_posConf links) hinv w
    have hu2 : (processNode links st w).1 u = some a := processNode_preserves hu
    rcases List.mem_cons.mp hv with rfl | hv2
    · rcases hmv : st.1 v with _ | b
      · have hc := assign_of_neighbor hinv hmv hnb hu
        have heq := processNode_of_assign links st.1 v st.2 hc
        rw [Prod.mk.eta] at heq
        have hsome : (processNode links st v).1 v =
            some (propagatedAlign (avgOf links st.1 v)) := by
          rw [heq]
          simp [Function.update_same]
        rw [foldl_processNode_preserves links l _ hsome]
        rfl
      · have hsome : (processNode links st v).1 v = some b := processNode_preserves hmv
        rw [foldl_processNode_preserves links l _ hsome]
        rfl
    · exact ih _ hinv2 hu2 hv2

theorem reachB_zero (nodes : List α) (links : List (Option α × Option α))
    (seed : α → Bool) (v : α) : reachB nodes links seed 0 v = seed v := rfl

theorem reachB_succ (nodes : List α) (links : List (Option α × Option α))
    (seed : α → Bool) (k : Nat) (v : α) :
    reachB nodes links seed (k + 1) v =
      (reachB nodes links seed k v ||
        (decide (v ∈ nodes) &&
          (neighborIds links v).any (fun u => reachB nodes links seed k u))) := rfl

theorem reachB_mono {nodes : List α} {links : List (Option α × Option α)}
    {seed : α → Bool} {k : Nat} {v : α}
    (h : reachB nodes links seed k v = true) :
    reachB nodes links seed (k + 1) v = true := by
  rw [reachB_succ, h]
  rfl

/-- After one round, reachability contracts by one step: anything within
`k+1` steps of the aligned set is within `k` steps of the new aligned set. -/
theorem reach_step {nodes : List α} {links : List (Option α × Option α)}
    {m : α → Option (NodeAlign K)}
    (hinv : AlignedInv (PosConf (α := α) (K := K)) m) :
    ∀ (k : Nat) (v : α),
      reachB nodes links (fun x => (m x).isSome) (k + 1) v = true →
      reachB nodes links
        (fun x => ((propagateRound nodes links m).1 x).isSome) k v = true := by
  intro k
  induction k with
  | zero =>
    intro v h
    rw [reachB_succ] at h
    simp only [Bool.or_eq_true, Bool.and_eq_true, List.any_eq_true,
      decide_eq_true_eq, reachB_zero] at h
    rcases h with h | ⟨hvnodes, u, hnb, hu⟩
    · obtain ⟨a, ha⟩ := Option.isSome_iff_exists.mp h
      show ((propagateRound nodes links m).1 v).isSome = true
      rw [propagateRound_preserves links nodes ha]
      rfl
    · obtain ⟨a, ha⟩ := Option.isSome_iff_exists.mp hu
      exact fold_covers nodes (m, 0) hinv ha hnb hvnodes
  | succ k ih =>
    intro v h
    rw [reachB_succ] at h
    simp only [Bool.or_eq_true, Bool.and_eq_true, List.any_eq_true,
      decide_eq_true_eq] at h
    rcases h with h | ⟨hvnodes, u, hnb, hu⟩
    · exact reachB_mono (ih v h)
    · have hu2 := ih u hu
      rw [reachB_succ]
      simp only [Bool.or_eq_true, Bool.and_eq_true, List.any_eq_true,
        decide_eq_true_eq]
      exact Or.inr ⟨hvnodes, u, hnb, hu2⟩

/-- At a fixpoint round (no node assignable), reachability collapses:
everything reachable from the aligned set is already aligned. -/
theorem fixpoint_cover {nodes : List α} {links : List (Option α × Option α)}
    {m : α → Option (NodeAlign K)}
    (hinv : AlignedInv (PosConf (α := α) (K := K)) m)
    (hno : ∀ w ∈ nodes, ¬ assignCondition links m w) :
    ∀ (k : Nat) (v : α),
      reachB nodes links (fun x => (m x).isSome) k v = true → (m v).isSome := by
  intro k
  induction k with
  | zero => exact fun v h => h
  | succ k ih =>
    intro v h
    rw [reachB_succ] at h
    simp only [Bool.or_eq_true, Bool.and_eq_true, List.any_eq_true,
      decide_eq_true_eq] at h
    rcases h with h | ⟨hvnodes, u, hnb, hu⟩
    · exact ih v h
    · rcases hmv : m v with _ | b
      · obtain ⟨a, ha⟩ := Option.isSome_iff_exists.mp (ih u hu)
        exact absurd (assign_of_neighbor hinv hmv hnb ha) (hno v hvnodes)
      · rfl

/-- Running the loop with enough fuel aligns everything within reach. -/
theorem loop_covers {links : List (Option α × Option α)} (nodes : List α)
    (fuel : Nat) (m : α → Option (NodeAlign K)) (k : Nat) (v : α)
    (hk : k ≤ fuel) (hinv : AlignedInv (PosConf (α := α) (K := K)) m)
    (h : reachB nodes links (fun x => (m x).isSome) k v = true) :
    (propagateLoop nodes links fuel m v).isSome := by
  induction fuel generalizing m k with
  | zero =>
    have : k = 0 := Nat.le_zero.mp hk
    subst this
    exact h
  | succ fuel ih =>
    simp only [propagateLoop]
    by_cases hz : (propagateRound nodes links m).2 = 0
    · rw [if_pos hz]
      obtain ⟨hfix, hno⟩ := propagateRound_zero_fixpoint links nodes m hz
      rw [hfix]
      exact fixpoint_cover hinv hno k v h
    · rw [if_neg hz]
      have hinv2 : AlignedInv (PosConf (α := α) (K := K))
          (propagateRound nodes links m).1 :=
        propagateRound_inv (newOk_posConf links) nodes hinv
      cases k with
      | zero =>
        obtain ⟨a, ha⟩ := Option.isSome_iff_exists.mp h
        have ha2 := propagateRound_preserves links nodes ha
        exact ih _ 0 (Nat.zero_le _) hinv2 (by
          show ((propagateRound nodes links m).1 v).isSome = true
          rw [ha2]
          rfl)
      | succ k =>
        exact ih _ k (Nat.succ_le_succ_iff.mp hk) hinv2 (reach_step hinv k v h)

/-! ### The shape, connectivity and range invariants -/

/-- The exact shape of every propagated alignment (lines 468-475). -/
def IsPropagated (a : NodeAlign K) : Prop :=
  a.stated = none ∧ a.confidence = 3/10 ∧ a.drift = 0 ∧
    a.source = "propagated" ∧ a.behavioral = a.final

theorem newOk_shape (links : List (Option α × Option α))
    (init : α → Option (NodeAlign K)) :
    NewOk links (fun v a => init v = some a ∨ IsPropagated a) :=
  fun _ _ _ _ => Or.inr ⟨rfl, rfl, rfl, rfl, rfl⟩

theorem connB_zero (links : List (Option α × Option α)) (seed : α → Bool) (v : α) :
    connB links seed 0 v = seed v := rfl

theorem connB_succ (links : List (Option α × Option α)) (seed : α → Bool)
    (k : Nat) (v : α) :
    connB links seed (k + 1) v =
      (connB links seed k v ||
        (neighborIds links v).any (fun u => connB links seed k u)) := rfl

theorem gather_nonempty_neighbor {links : List (Option α × Option α)}
    {m : α → Option (NodeAlign K)} {v : α}
    (h : (gatherNeighborAligns links m v).isEmpty = false) :
    ∃ u b, u ∈ neighborIds links v ∧ m u = some b := by
  have hne : gatherNeighborAligns links m v ≠ [] := by
    simpa [List.isEmpty_iff] using h
  obtain ⟨p, hp⟩ := List.exists_mem_of_ne_nil _ hne
  simp only [gatherNeighborAligns, List.mem_filterMap] at hp
  obtain ⟨u, hu, hmap⟩ := hp
  obtain ⟨b, hb, _⟩ := Option.map_eq_some'.mp hmap
  exact ⟨u, b, hu, hb⟩

theorem newOk_conn (links : List (Option α × Option α))
    (init : α → Option (NodeAlign K)) :
    NewOk links (fun v (_ : NodeAlign K) =>
      ∃ k, connB links (fun x => (init x).isSome) k v = true) := by
  intro m id hinv hc
  obtain ⟨u, b, hu, hb⟩ := gather_nonempty_neighbor hc.2.1
  obtain ⟨k, hk⟩ := hinv u b hb
  refine ⟨k + 1, ?_⟩
  rw [connB_succ]
  simp only [Bool.or_eq_true, List.any_eq_true]
  exact Or.inr ⟨u, hu, hk⟩

/-- All axis values in [-1,1], confidence and drift in [0,1]. -/
def RangeOk (a : NodeAlign K) : Prop :=
  (-1 ≤ a.behavioral.law_chaos ∧ a.behavioral.law_chaos ≤ 1) ∧
  (-1 ≤ a.behavioral.good_evil ∧ a.behavioral.good_evil ≤ 1) ∧
  (-1 ≤ a.final.law_chaos ∧ a.final.law_chaos ≤ 1) ∧
  (-1 ≤ a.final.good_evil ∧ a.final.good_evil ≤ 1) ∧
  (0 ≤ a.confidence ∧ a.confidence ≤ 1) ∧
  (0 ≤ a.drift ∧ a.drift ≤ 1)

theorem sum_map_neg (l : List (Axes K × K)) :
    (l.map fun p => -p.2).sum = -((l.map Prod.snd).sum) := by
  induction l with
  | nil => simp
  | cons p l ih =>
    simp only [List.map_cons, List.sum_cons, ih]
    ring

theorem div_bounds {S W : K} (hw : 0 < W) (hup : S ≤ W) (hlo : -W ≤ S) :
    -1 ≤ S / W ∧ S / W ≤ 1 := by
  constructor
  · rw [neg_le, ← neg_div]
    exact (div_le_one hw).mpr (by linarith)
  · exact (div_le_one hw).mpr hup

theorem weighted_avg_bounds (l : List (Axes K × K))
    (hx : ∀ p ∈ l, ((-1 ≤ p.1.law_chaos ∧ p.1.law_chaos ≤ 1) ∧
      (-1 ≤ p.1.good_evil ∧ p.1.good_evil ≤ 1) ∧ 0 ≤ p.2))
    (hw : 0 < (l.map Prod.snd).sum) :
    (-1 ≤ (l.map fun p => p.1.law_chaos * p.2).sum / (l.map Prod.snd).sum ∧
      (l.map fun p => p.1.law_chaos * p.2).sum / (l.map Prod.snd).sum ≤ 1) ∧
    (-1 ≤ (l.map fun p => p.1.good_evil * p.2).sum / (l.map Prod.snd).sum ∧
      (l.map fun p => p.1.good_evil * p.2).sum / (l.map Prod.snd).sum ≤ 1) := by
  have hup1 : (l.map fun p => p.1.law_chaos * p.2).sum ≤ (l.map Prod.snd).sum :=
    List.sum_le_sum (fun p hp => by nlinarith [(hx p hp).1.2, (hx p hp).2.2])
  have hlo1 : (l.map fun p => -p.2).sum ≤ (l.map fun p => p.1.law_chaos * p.2).sum :=
    List.sum_le_sum (fun p hp => by nlinarith [(hx p hp).1.1, (hx p hp).2.2])
  have hup2 : (l.map fun p => p.1.good_evil * p.2).sum ≤ (l.map Prod.snd).sum :=
    List.sum_le_sum (fun p hp => by nlinarith [(hx p hp).2.1.2, (hx p hp).2.2])
  have hlo2 : (l.map fun p => -p.2).sum ≤ (l.map fun p => p.1.good_evil * p.2).sum :=
    List.sum_le_sum (fun p hp => by nlinarith [(hx p hp).2.1.1, (hx p hp).2.2])
  rw [sum_map_neg] at hlo1 hlo2
  exact ⟨div_bounds hw hup1 hlo1, div_bounds hw hup2 hlo2⟩

theorem gather_elem_range {links : List (Option α × Option α)}
    {m : α → Option (NodeAlign K)} {v : α}
    (hinv : AlignedInv (fun (_ : α) (a : NodeAlign K) => RangeOk a) m) :
    ∀ p ∈ gatherNeighborAligns links m v,
      ((-1 ≤ p.1.law_chaos ∧ p.1.law_chaos ≤ 1) ∧
        (-1 ≤ p.1.good_evil ∧ p.1.good_evil ≤ 1) ∧ 0 ≤ p.2) := by
  intro p hp
  simp only [gatherNeighborAligns, List.mem_filterMap] at hp
  obtain ⟨u, _, hu⟩ := hp
  obtain ⟨b, hb, rfl⟩ := Option.map_eq_some'.mp hu
  obtain ⟨_, _, h3, h4, h5, _⟩ := hinv u b hb
  exact ⟨h3, h4, h5.1⟩

theorem newOk_range (links : List (Option α × Option α)) :
    NewOk links (fun (_ : α) (a : NodeAlign K) => RangeOk a) := by
  intro m id hinv hc
  have hb := weighted_avg_bounds (gatherNeighborAligns links m id)
    (gather_elem_range hinv) hc.2.2
  exact ⟨hb.1, hb.2, hb.1, hb.2,
    ⟨show (0 : K) ≤ 3/10 by norm_num, show (3 : K)/10 ≤ 1 by norm_num⟩,
    ⟨le_refl (0 : K), show (0 : K) ≤ 1 by norm_num⟩⟩

/-! ### Settling claim C3 -/

/-- Amended claim C3: assume every directly classified node has positive
confidence (true of the pipeline, whose direct confidences are at least
0.7 for explicit sources, clamped LLM confidences otherwise).  After
`propagate_alignments` with its 10-round budget: directly classified
nodes keep their alignment unchanged; every unclassified node whose
undirected distance (through listed nodes) to a classified node is at
most 10 acquires an alignment with `stated = none`,
`confidence = 0.3` exactly, `drift = 0` and `source = "propagated"`; and
every node not connected to any classified node keeps `alignment = none`.
(The unamended claim fails: a node at distance 11 in the same component
stays null, see the 12-node chain counterexample.) -/
theorem propagate_alignments_spec (K : Type) [LinearOrderedField K]
    {α : Type} [DecidableEq α] (nodes : List α)
    (links : List (Option α × Option α)) (init : α → Option (NodeAlign K))
    (hpos : ∀ v a, init v = some a → 0 < a.confidence) :
    (∀ v a, init v = some a → propagate_alignments nodes links init 10 v = some a) ∧
    (∀ v, init v = none →
      reachB nodes links (fun x => (init x).isSome) 10 v = true →
      ∃ a, propagate_alignments nodes links init 10 v = some a ∧
        a.stated = none ∧ a.confidence = 3/10 ∧ a.drift = 0 ∧
        a.source = "propagated") ∧
    (∀ v, init v = none →
      (∀ k, connB links (fun x => (init x).isSome) k v = false) →
      propagate_alignments nodes links init 10 v = none) := by
  refine ⟨?_, ?_, ?_⟩
  · intro v a h
    exact propagateLoop_preserves links nodes 10 h
  · intro v hv hreach
    have hsome := loop_covers nodes 10 init 10 v (le_refl _) hpos hreach
    obtain ⟨a, ha⟩ := Option.isSome_iff_exists.mp hsome
    have hshape := propagateLoop_inv (newOk_shape links init) nodes 10
      (fun u b hb => Or.inl hb) v a ha
    rcases hshape with hinit | hprop
    · rw [hv] at hinit
      cases hinit
    · exact ⟨a, ha, hprop.1, hprop.2.1, hprop.2.2.1, hprop.2.2.2.1⟩
  · intro v hv hnc
    have hAconn : AlignedInv
        (fun w (_ : NodeAlign K) =>
          ∃ k, connB links (fun x => (init x).isSome) k w = true) init := by
      intro u b hb
      refine ⟨0, ?_⟩
      rw [connB_zero]
      show (init u).isSome = true
      rw [hb]
      rfl
    have hconn := propagateLoop_inv (newOk_conn links init) nodes 10 hAconn
    rcases hres : propagate_alignments nodes links init 10 v with _ | a
    · rfl
    · obtain ⟨k, hk⟩ := hconn v a hres
      rw [hnc k] at hk
      cases hk

/-- Concrete graph for the C3 witness: two nodes, one classified seed. -/
def wInit : ℕ → Option (NodeAlign ℚ) :=
  fun v => if v = 0 then some ⟨none, ⟨1, 1⟩, ⟨1, 1⟩, 1, 0, "explicit"⟩ else none

/-- Witness for the amended C3: on the two-node graph `0 — 1` with node 0
classified at confidence 1, node 1 receives a propagated alignment. -/
theorem propagate_alignments_spec_witness :
    (∀ v a, wInit v = some a → (0 : ℚ) < a.confidence) ∧
    wInit 1 = none ∧
    reachB [0, 1] [(some 0, some 1)] (fun x => (wInit x).isSome) 10 1 = true ∧
    (∃ a, propagate_alignments [0, 1] [(some 0, some 1)] wInit 10 1 = some a ∧
      a.stated = none ∧ a.confidence = 3/10 ∧ a.drift = 0 ∧
      a.source = "propagated") := by
  have hpos : ∀ v a, wInit v = some a → (0 : ℚ) < a.confidence := by
    intro v a h
    unfold wInit at h
    by_cases hv : v = 0
    · rw [if_pos hv] at h
      injection h with h2
      rw [← h2]
      norm_num
    · rw [if_neg hv] at h
      cases h
  refine ⟨hpos, by decide, by decide, ?_⟩
  exact (propagate_alignments_spec ℚ [0, 1] [(some 0, some 1)] wInit hpos).2.1
    1 (by decide) (by decide)

/-- A 12-node chain with the single classified node at one end and the
node list ordered against the direction of propagation, so each of the 10
rounds advances the frontier by exactly one hop. -/
def chainLinks : List (Option ℕ × Option ℕ) :=
  [(some 0, some 1), (some 1, some 2), (some 2, some 3), (some 3, some 4),
   (some 4, some 5), (some 5, some 6), (some 6, some 7), (some 7, some 8),
   (some 8, some 9), (some 9, some 10), (some 10, some 11)]

/-- The chain's node list, farthest node first. -/
def chainNodes : List ℕ := [11, 10, 9, 8, 7, 6, 5, 4, 3, 2, 1, 0]

/-- The chain's initial state: only node 0 directly classified. -/
def chainInit : ℕ → Option (NodeAlign ℚ) :=
  fun v => if v = 0 then some ⟨none, ⟨1, 1⟩, ⟨1, 1⟩, 1, 0, "explicit"⟩ else none

set_option maxHeartbeats 8000000 in
set_option maxRecDepth 40000 in
/-- Counterexample to claim C3 as stated: node 11 lies in the same
connected component as the directly classified node 0 (11 undirected
steps away), yet after `propagate_alignments` exhausts its 10 rounds the
node still has `alignment = None` — propagation completeness fails for
components of diameter larger than the iteration budget. -/
theorem propagate_alignments_leaves_connected_node_null :
    connB chainLinks (fun v => (chainInit v).isSome) 11 11 = true ∧
    chainInit 11 = none ∧
    propagate_alignments chainNodes chainLinks chainInit 10 11 = none := by
  refine ⟨by decide, by decide, ?_⟩
  norm_num [propagate_alignments, propagateLoop, propagateRound, processNode,
    gatherNeighborAligns, neighborIds, propagatedAlign, chainInit, chainNodes,
    chainLinks, Function.update, List.foldl, List.filterMap, List.isEmpty]

/-- A classified seed with confidence 0 (possible via the LLM path, whose
clamped confidence may be 0): its total weight is 0, so the guard
`total_weight > 0` blocks propagation even to a direct neighbor.  This is
why the amended completeness statement assumes positive confidence on
directly classified nodes. -/
def zeroConfInit : ℕ → Option (NodeAlign ℚ) :=
  fun v => if v = 0 then some ⟨none, ⟨1, 1⟩, ⟨1, 1⟩, 0, 0, "llm"⟩ else none

theorem zero_confidence_seed_blocks_propagation :
    propagate_alignments [1, 0] [(some 0, some 1)] zeroConfInit 10 1 = none := by
  norm_num [propagate_alignments, propagateLoop, propagateRound, processNode,
    gatherNeighborAligns, neighborIds, propagatedAlign, zeroConfInit,
    Function.update, List.foldl, List.filterMap, List.isEmpty]

/-! ## The direct-classification alignment record (lines 651-684)

The orchestrator builds each directly classified node's alignment from
its stated alignment, its outgoing relationships and the stated scores of
targets: behavioral aggregation, ceiling, drift, then the confidence rule
of lines 669-675, assembled into the stored record of lines 677-684.
Drift uses a square root, so this is embedded over `ℝ`. -/

/-- Lines 651-684: the alignment record attached to a directly classified
node. -/
noncomputable def directAlignment (stated : Option (Stated ℝ))
    (rels : List (Option (Rel ℝ String)))
    (targets : String → Option (TargetAlign ℝ)) : NodeAlign ℝ :=
  let behavioral := calculate_behavioral_alignment stated rels targets
  let final := apply_ceiling_constraint stated behavioral
  let drift := calculate_drift stated final
  let confidence : ℝ :=
    match stated with
    | some s => if s.source = "explicit" then 1 - drift * 0.3 else s.confidence
    | none => 0.5
  { stated := stated.map (fun s => ⟨s.law_chaos, s.good_evil⟩),
    behavioral := behavioral,
    final := final,
    confidence := confidence,
    drift := drift,
    source := match stated with | some s => s.source | none => "behavioral" }

theorem calculate_behavioral_alignment_bounds {α : Type} [DecidableEq α]
    (stated : Option (Stated K)) (rels : List (Option (Rel K α)))
    (targets : α → Option (TargetAlign K))
    (hs : ∀ s, stated = some s →
      ((-1 ≤ s.law_chaos ∧ s.law_chaos ≤ 1) ∧ (-1 ≤ s.good_evil ∧ s.good_evil ≤ 1))) :
    ((-1 ≤ (calculate_behavioral_alignment stated rels targets).law_chaos ∧
       (calculate_behavioral_alignment stated rels targets).law_chaos ≤ 1) ∧
     (-1 ≤ (calculate_behavioral_alignment stated rels targets).good_evil ∧
       (calculate_behavioral_alignment stated rels targets).good_evil ≤ 1)) := by
  unfold calculate_behavioral_alignment
  by_cases hrel : rels = []
  · simp only [hrel, if_pos rfl]
    cases stated with
    | none => constructor <;> constructor <;> norm_num
    | some s => simpa using hs s rfl
  · simp only [if_neg hrel]
    by_cases hw : 0 < (rels.foldl (relStep targets) (0, 0, 0)).2.2
    · simp only [if_pos hw]
      exact ⟨clampAxis_mem _, clampAxis_mem _⟩
    · simp only [if_neg hw]
      exact ⟨clampAxis_mem _, clampAxis_mem _⟩

theorem apply_ceiling_constraint_bounds (stated : Option (Stated K)) (b : Axes K)
    (hb : ((-1 ≤ b.law_chaos ∧ b.law_chaos ≤ 1) ∧ (-1 ≤ b.good_evil ∧ b.good_evil ≤ 1)))
    (hs : ∀ s, stated = some s → (-1 ≤ s.law_chaos ∧ -1 ≤ s.good_evil)) :
    ((-1 ≤ (apply_ceiling_constraint stated b).law_chaos ∧
       (apply_ceiling_constraint stated b).law_chaos ≤ 1) ∧
     (-1 ≤ (apply_ceiling_constraint stated b).good_evil ∧
       (apply_ceiling_constraint stated b).good_evil ≤ 1)) := by
  cases stated with
  | none => simpa [apply_ceiling_constraint] using hb
  | some s =>
    obtain ⟨hs1, hs2⟩ := hs s rfl
    unfold apply_ceiling_constraint
    constructor
    · by_cases h1 : 0 ≤ s.law_chaos
      · simp only [if_pos h1]
        exact ⟨le_min hb.1.1 hs1, le_trans (min_le_left _ _) hb.1.2⟩
      · simp only [if_neg h1]
        exact hb.1
    · by_cases h2 : 0 ≤ s.good_evil
      · simp only [if_pos h2]
        exact ⟨le_min hb.2.1 hs2, le_trans (min_le_left _ _) hb.2.2⟩
      · simp only [if_neg h2]
        exact hb.2

theorem calculate_drift_mem (stated : Option (Stated ℝ)) (f : Axes ℝ) :
    0 ≤ calculate_drift stated f ∧ calculate_drift stated f ≤ 1 := by
  cases stated with
  | none => simp [calculate_drift]
  | some s =>
    unfold calculate_drift
    constructor
    · apply le_min (by norm_num)
      positivity
    · exact min_le_left _ _

theorem findAlignmentPattern_mem {content : String} {l : List (Pat × K × K)}
    {s : Stated K} (h : findAlignmentPattern content l = some s) :
    ∃ pr ∈ l, s = ⟨pr.2.1, pr.2.2, 1, "explicit"⟩ := by
  induction l with
  | nil => cases h
  | cons pr l ih =>
    obtain ⟨p, lc, ge⟩ := pr
    by_cases hp : patMatches p content
    · rw [findAlignmentPattern, if_pos hp] at h
      injection h with h2
      exact ⟨(p, lc, ge), by simp, h2.symm⟩
    · rw [findAlignmentPattern, if_neg hp] at h
      obtain ⟨pr2, hmem, hs⟩ := ih h
      exact ⟨pr2, by simp [hmem], hs⟩

/-- Every stated alignment the extractor produces satisfies the range
hypothesis of the C5 theorem: its table pairs lie in {-1,0,1} and its
confidence is 1. -/
theorem extract_stated_alignment_in_range (content : String) (s : Stated ℝ)
    (h : extract_stated_alignment ℝ content = some s) :
    ((-1 ≤ s.law_chaos ∧ s.law_chaos ≤ 1) ∧
     (-1 ≤ s.good_evil ∧ s.good_evil ≤ 1) ∧
     (0 ≤ s.confidence ∧ s.confidence ≤ 1)) := by
  unfold extract_stated_alignment at h
  by_cases hc : content = ""
  · rw [if_pos hc] at h
    cases h
  · rw [if_neg hc] at h
    obtain ⟨pr, hmem, rfl⟩ := findAlignmentPattern_mem h
    fin_cases hmem <;> norm_num

/-- Every stated alignment the LLM path produces satisfies the range
hypothesis of the C5 theorem, by the defensive clamping. -/
theorem mkEntityAlignment_in_range (raw : RawEntity ℝ) :
    ((-1 ≤ (mkEntityAlignment raw).law_chaos ∧ (mkEntityAlignment raw).law_chaos ≤ 1) ∧
     (-1 ≤ (mkEntityAlignment raw).good_evil ∧ (mkEntityAlignment raw).good_evil ≤ 1) ∧
     (0 ≤ (mkEntityAlignment raw).confidence ∧ (mkEntityAlignment raw).confidence ≤ 1)) :=
  ⟨clampAxis_mem _, clampAxis_mem _, clampConf_mem _⟩

/-- Claim C5: every alignment record the pipeline attaches to a node is
in range.  First conjunct: a direct classification built from an in-range
stated alignment (extraction yields axes in {-1,0,1} with confidence 1;
the LLM path is clamped) has all four axis values in [-1,1] and
confidence and drift in [0,1].  Second conjunct: propagation — despite
its unclamped weighted averaging — preserves the same range invariant
over the whole node state, for any ordered field of scores. -/
theorem pipeline_range_invariant :
    (∀ (stated : Option (Stated ℝ)) (rels : List (Option (Rel ℝ String)))
      (targets : String → Option (TargetAlign ℝ)),
      (∀ s, stated = some s →
        ((-1 ≤ s.law_chaos ∧ s.law_chaos ≤ 1) ∧
         (-1 ≤ s.good_evil ∧ s.good_evil ≤ 1) ∧
         (0 ≤ s.confidence ∧ s.confidence ≤ 1))) →
      RangeOk (directAlignment stated rels targets)) ∧
    (∀ (α : Type) (_ : DecidableEq α) (K : Type) (_ : LinearOrderedField K)
      (nodes : List α) (links : List (Option α × Option α))
      (init : α → Option (NodeAlign K)),
      AlignedInv (fun (_ : α) (a : NodeAlign K) => RangeOk a) init →
      AlignedInv (fun (_ : α) (a : NodeAlign K) => RangeOk a)
        (propagate_alignments nodes links init 10)) := by
  constructor
  · intro stated rels targets hs
    have hb := calculate_behavioral_alignment_bounds stated rels targets
      (fun s h => ⟨(hs s h).1, (hs s h).2.1⟩)
    have hf := apply_ceiling_constraint_bounds stated
      (calculate_behavioral_alignment stated rels targets) hb
      (fun s h => ⟨(hs s h).1.1, (hs s h).2.1.1⟩)
    have hd := calculate_drift_mem stated
      (apply_ceiling_constraint stated (calculate_behavioral_alignment stated rels targets))
    refine ⟨hb.1, hb.2, hf.1, hf.2, ?_, hd⟩
    show 0 ≤ (directAlignment stated rels targets).confidence ∧
      (directAlignment stated rels targets).confidence ≤ 1
    cases stated with
    | none => constructor <;> norm_num [directAlignment]
    | some s =>
      by_cases hsrc : s.source = "explicit"
      · have hconf : (directAlignment (some s) rels targets).confidence =
            1 - calculate_drift (some s)
              (apply_ceiling_constraint (some s)
                (calculate_behavioral_alignment (some s) rels targets)) * 0.3 := by
          simp [directAlignment, hsrc]
        rw [hconf]
        constructor <;> nlinarith [hd.1, hd.2]
      · have hconf : (directAlignment (some s) rels targets).confidence =
            s.confidence := by
          simp [directAlignment, hsrc]
        rw [hconf]
        exact (hs s rfl).2.2
  · intro α instA K instK nodes links init hinit
    exact propagateLoop_inv (newOk_range links) nodes 10 hinit

/-- Witness for C5: the worked example's inputs on the direct path, and
the empty state on the propagation path. -/
theorem pipeline_range_invariant_witness :
    ((-1 ≤ (1 : ℝ) ∧ (1 : ℝ) ≤ 1) ∧ (-1 ≤ (1 : ℝ) ∧ (1 : ℝ) ≤ 1) ∧
      (0 ≤ (1 : ℝ) ∧ (1 : ℝ) ≤ 1)) ∧
    RangeOk (directAlignment (some ⟨1, 1, 1, "explicit"⟩)
      [some ⟨some "killed", some (-1), some 0, some "T"⟩]
      (fun t : String => if t = "T" then some ⟨some ⟨0, -1⟩⟩ else none)) ∧
    AlignedInv (fun (_ : ℕ) (a : NodeAlign ℚ) => RangeOk a)
      (propagate_alignments [0, 1] [(some 0, some 1)] (fun _ => none) 10) := by
  have h := pipeline_range_invariant
  refine ⟨by norm_num, ?_, ?_⟩
  · exact h.1 (some ⟨1, 1, 1, "explicit"⟩)
      [some ⟨some "killed", some (-1), some 0, some "T"⟩]
      (fun t : String => if t = "T" then some ⟨some ⟨0, -1⟩⟩ else none)
      (by intro s hs; injection hs with hs2; rw [← hs2]; norm_num)
  · exact h.2 ℕ inferInstance ℚ inferInstance [0, 1] [(some 0, some 1)]
      (fun _ => none) (fun v a ha => by cases ha)

end Oracle
